import Mathlib

/-!
Verification development for the PAM (Population Activity Modifier)
activity-plan data model, its mutators, the travel-diary sequence-inference
engine, and the policy engine.

The repository ships its behavioural documentation (README, activity_plans,
modelling_policy_impact) but not the Python modules themselves, so the
executable definitions below are shallow embeddings reconstructed from the
specification text; each such definition carries a doc comment saying so.
Times are minute-of-day integers; frequencies and probabilities are rationals.
-/

namespace Pam

/-- Modelled from the spec: the day's logical end, 1440 minutes
(the Python modules `pam.activity` / `pam.variables` are not in the sources;
the spec fixes the total span of a plan at exactly 1440 minutes). -/
def END_OF_DAY : Int := 1440

/-- A raw time value from a travel-diary record: either an integer number of
minutes or a wall-clock string. -/
inductive TimeVal where
  | intv (n : Int)
  | strv (s : String)
deriving DecidableEq, Repr

/-- Splits a character list on the colon character. -/
def splitColon : List Char → List (List Char)
  | [] => [[]]
  | c :: rest =>
    if c = ':' then [] :: splitColon rest
    else
      match splitColon rest with
      | [] => [[c]]
      | p :: ps => (c :: p) :: ps

/-- Reads a run of decimal digit characters, accumulating their value. -/
def digitsToNatAux : List Char → Nat → Option Nat
  | [], acc => some acc
  | c :: rest, acc =>
    if '0' ≤ c ∧ c ≤ '9' then digitsToNatAux rest (acc * 10 + (c.toNat - 48))
    else none

/-- Numeric value of a nonempty all-digit character run; none otherwise. -/
def digitsToNat : List Char → Option Nat
  | [] => none
  | cs => digitsToNatAux cs 0

/-- Modelled from the spec: parse a wall-clock string of the shape
HH:MM or HH:MM:SS into a minute count; none when unparseable. -/
def parseClock (s : String) : Option Int :=
  match (splitColon s.toList).map digitsToNat with
  | [some h, some m] => some ((h : Int) * 60 + (m : Int))
  | [some h, some m, some _] => some ((h : Int) * 60 + (m : Int))
  | _ => none

/-- Modelled from the spec: `to_minutes(value) -> int` accepting either an
integer number of minutes or a parseable wall-clock string; raises a
MalformedTimeError-class failure if the input cannot be parsed
(the Python module `pam.utils` is not in the sources). -/
def to_minutes : TimeVal → Except String Int
  | .intv n => .ok n
  | .strv s =>
    match parseClock s with
    | some m => .ok m
    | none => .error "MalformedTimeError"

/-- A time value is parseable when it is an integer minute count or a
wall-clock string accepted by `parseClock`. -/
def parseableTime : TimeVal → Bool
  | .intv _ => true
  | .strv s => (parseClock s).isSome

/-- Modelled from the spec: `duration(start, end) -> int` with wraparound
awareness; if `end < start` the span is interpreted as crossing midnight
and 1440 is added. -/
def duration (st et : Int) : Int :=
  if st ≤ et then et - st else et - st + 1440

/-- An Activity: a stay at a location with a purpose and a time window. -/
structure Activity where
  act : String
  area : String
  start_time : Int
  end_time : Int
deriving DecidableEq, Repr

/-- A Leg: travel between two activities with a mode, a time window and an
optional frequency weight. -/
structure Leg where
  mode : String
  start_area : String
  end_area : String
  start_time : Int
  end_time : Int
  freq : Option Rat
deriving DecidableEq, Repr

/-- One element of a plan: an Activity or a Leg. -/
inductive PElem where
  | activity (a : Activity)
  | leg (l : Leg)
deriving DecidableEq, Repr

def PElem.startTime : PElem → Int
  | .activity a => a.start_time
  | .leg l => l.start_time

def PElem.endTime : PElem → Int
  | .activity a => a.end_time
  | .leg l => l.end_time

def PElem.isActivity : PElem → Bool
  | .activity _ => true
  | .leg _ => false

/-- A Plan: an ordered sequence of Activities and Legs. -/
structure Plan where
  day : List PElem
deriving DecidableEq, Repr

/-- Alternation helper: checks the element kinds alternate, the flag telling
whether an Activity is expected next. -/
def alternates : Bool → List PElem → Bool
  | _, [] => true
  | true, .activity _ :: rest => alternates false rest
  | false, .leg _ :: rest => alternates true rest
  | _, _ => false

def endsWithActivity (es : List PElem) : Bool :=
  match es.getLast? with
  | some (.activity _) => true
  | _ => false

/-- Structural invariant: the sequence is nonempty, starts with an Activity,
alternates Activity/Leg, and ends with an Activity. -/
def alternationOk (es : List PElem) : Bool :=
  !es.isEmpty && alternates true es && endsWithActivity es

/-- Temporal-contiguity invariant: each element starts where the previous
element ends. -/
def contiguousOk : List PElem → Bool
  | [] => true
  | [_] => true
  | a :: b :: rest => (a.endTime == b.startTime) && contiguousOk (b :: rest)

def firstStart (es : List PElem) : Int :=
  match es.head? with
  | some e => e.startTime
  | none => 0

def lastEnd (es : List PElem) : Int :=
  match es.getLast? with
  | some e => e.endTime
  | none => 0

/-- Non-negative-duration invariant: every element ends no earlier than it
starts. -/
def durationsOk (es : List PElem) : Bool :=
  es.all (fun e => e.startTime ≤ e.endTime)

/-- Modelled from the spec: `validate()` — a pure check of the plan
invariants: alternation, contiguity, closure of the day from minute 0 to
minute 1440, and non-negative durations (the Python `pam.activity.Plan`
module is not in the sources). -/
def validate (p : Plan) : Bool :=
  alternationOk p.day && contiguousOk p.day &&
    (firstStart p.day == 0) && (lastEnd p.day == END_OF_DAY) &&
    durationsOk p.day

/-- Total span of a plan: last end time minus first start time. -/
def totalSpan (p : Plan) : Int :=
  lastEnd p.day - firstStart p.day

/-- Sum of the element durations of a plan body. -/
def sumDur (es : List PElem) : Int :=
  (es.map (fun e => e.endTime - e.startTime)).sum

/-- Atomic commit step: the candidate arrangement is validated and swapped
in only when valid, otherwise the named error is raised and the original
plan is left untouched. Modelled from the spec: every public mutator either
fully repairs the invariant before returning or raises
(build the new arrangement, validate, then swap). -/
def commit (err : String) (c : Plan) : Except String Plan :=
  if validate c then .ok c else .error err

/-- Modelled from the spec: `append(element)` adds an Activity or Leg at the
end; fails with SequenceError if the alternation invariant would be
violated, and commits atomically. -/
def Plan.append (p : Plan) (e : PElem) : Except String Plan :=
  commit "SequenceError" ⟨p.day ++ [e]⟩

/-- Core splice for `remove_activity`: removes the Activity at position `i`
of the element list together with one adjacent Leg, merging the freed time
into the remaining neighbouring Activity; none when `i` does not point at a
removable Activity. Modelled from the spec. -/
def removeAt : List PElem → Nat → Option (List PElem)
  | PElem.activity _ :: [], 0 => none
  | PElem.activity a :: PElem.leg _ :: PElem.activity b :: rest, 0 =>
      some (PElem.activity ⟨b.act, b.area, a.start_time, b.end_time⟩ :: rest)
  | PElem.activity prev :: PElem.leg _ :: PElem.activity cur :: rest, 2 =>
      some (PElem.activity ⟨prev.act, prev.area, prev.start_time, cur.end_time⟩ :: rest)
  | x :: xs, Nat.succ (Nat.succ (Nat.succ i)) =>
      (removeAt xs (Nat.succ (Nat.succ i))).map (fun d => x :: d)
  | _, _ => none

/-- Modelled from the spec: `remove_activity(index)` removes the Activity at
`index` together with one adjacent Leg, merging the freed time into the
remaining neighbouring Activity so total plan duration is conserved; fails
with SequenceError when removal is impossible, and commits atomically. -/
def Plan.remove_activity (p : Plan) (i : Nat) : Except String Plan :=
  match removeAt p.day i with
  | none => .error "SequenceError"
  | some d => commit "SequenceError" ⟨d⟩

/-- Core splice for `insert_activity`: at position `i` (which must hold an
Activity) the Activity donates its tail duration: it is truncated to end at
the new Leg's start, followed by the new Leg and the new Activity, which
runs from the Leg's end to the donor's former end time. None (CapacityError)
when the donor lacks the duration to donate. Modelled from the spec. -/
def insertAt : List PElem → Nat → Activity → Leg → Option (List PElem)
  | PElem.activity prev :: rest, 0, a, l =>
      if prev.start_time ≤ l.start_time ∧ l.end_time ≤ prev.end_time then
        some (PElem.activity ⟨prev.act, prev.area, prev.start_time, l.start_time⟩ ::
          PElem.leg l ::
          PElem.activity ⟨a.act, a.area, l.end_time, prev.end_time⟩ :: rest)
      else none
  | x :: xs, Nat.succ i, a, l => (insertAt xs i a l).map (fun d => x :: d)
  | _, _, _, _ => none

/-- Modelled from the spec: `insert_activity(index, activity, leg)` inserts
an Activity+Leg pair, splitting the duration of the neighbouring Activity
that donates time; fails with CapacityError if insufficient duration is
available, and commits atomically. -/
def Plan.insert_activity (p : Plan) (i : Nat) (a : Activity) (l : Leg) :
    Except String Plan :=
  match insertAt p.day i a l with
  | none => .error "CapacityError"
  | some d => commit "SequenceError" ⟨d⟩

def PElem.shiftBy (δ : Int) : PElem → PElem
  | .activity a => .activity ⟨a.act, a.area, a.start_time + δ, a.end_time + δ⟩
  | .leg l => .leg ⟨l.mode, l.start_area, l.end_area, l.start_time + δ, l.end_time + δ, l.freq⟩

def PElem.withTimes (ns ne : Int) : PElem → PElem
  | .activity a => .activity ⟨a.act, a.area, ns, ne⟩
  | .leg l => .leg ⟨l.mode, l.start_area, l.end_area, ns, ne, l.freq⟩

/-- Core of `retime`: sets element `i`'s times to the given window and
shifts every subsequent element by the induced offset so contiguity is
preserved downstream. Modelled from the spec. -/
def retimeCore : List PElem → Nat → Int → Int → Option (List PElem)
  | [], _, _, _ => none
  | x :: xs, 0, ns, ne =>
      some (x.withTimes ns ne :: xs.map (PElem.shiftBy (ne - x.endTime)))
  | x :: xs, Nat.succ i, ns, ne => (retimeCore xs i ns ne).map (fun d => x :: d)

/-- Clips or extends the final Activity's end time to the day's logical end
so the total span stays at exactly 1440 minutes. Modelled from the spec. -/
def clampLast : List PElem → List PElem
  | [] => []
  | [PElem.activity a] => [PElem.activity ⟨a.act, a.area, a.start_time, END_OF_DAY⟩]
  | [x] => [x]
  | x :: xs => x :: clampLast xs

/-- Modelled from the spec: `retime(index, new_start, new_end)` shifts one
element's times, cascades the shift to all subsequent elements, clips the
final Activity's end to keep the total span at 1440 minutes; fails with
TimeRangeError if the result would hold a negative-duration element, and
commits atomically. -/
def Plan.retime (p : Plan) (i : Nat) (ns ne : Int) : Except String Plan :=
  match retimeCore p.day i ns ne with
  | none => .error "TimeRangeError"
  | some d => commit "TimeRangeError" ⟨clampLast d⟩

/-- Index of the first Activity whose area lies outside the core area. -/
def findExternalAct (pred : String → Bool) : List PElem → Option Nat
  | [] => none
  | PElem.activity a :: rest =>
      if pred a.area then (findExternalAct pred rest).map Nat.succ
      else some 0
  | PElem.leg _ :: rest => (findExternalAct pred rest).map Nat.succ

/-- Removal loop for `crop`: repeatedly removes the first external Activity
(together with an adjacent Leg) until none remains, bounded by fuel. -/
def cropLoop (pred : String → Bool) : Nat → List PElem → Option (List PElem)
  | 0, es => some es
  | Nat.succ n, es =>
    match findExternalAct pred es with
    | none => some es
    | some i =>
      match removeAt es i with
      | none => none
      | some es2 => cropLoop pred n es2

/-- Modelled from the spec: `crop(core_area_predicate)` removes
Activities/Legs entirely outside the core area while preserving the
invariants; if all activities are outside the core area the plan is
signalled as fully-external, and the edit commits atomically. -/
def Plan.crop (p : Plan) (pred : String → Bool) : Except String Plan :=
  if p.day.all (fun e =>
      match e with
      | .activity a => !pred a.area
      | .leg _ => true) then
    .error "fully-external"
  else
    match cropLoop pred p.day.length p.day with
    | none => .error "SequenceError"
    | some d => commit "SequenceError" ⟨d⟩

/-- The public mutators of a Plan, as one datatype. -/
inductive Mutation where
  | append (e : PElem)
  | remove (i : Nat)
  | insert (i : Nat) (a : Activity) (l : Leg)
  | retime (i : Nat) (ns ne : Int)
  | crop (pred : String → Bool)

/-- Dispatch a mutation to the corresponding public Plan mutator. -/
def applyMutation : Mutation → Plan → Except String Plan
  | .append e, p => p.append e
  | .remove i, p => p.remove_activity i
  | .insert i a l, p => p.insert_activity i a l
  | .retime i ns ne, p => p.retime i ns ne
  | .crop pred, p => p.crop pred

/-- Stateful view of a mutation: returns the plan the caller observes after
the call together with the raised error, if any; on error the observed plan
is the untouched original (all-or-nothing semantics). -/
def applyMutationSt (m : Mutation) (p : Plan) : Plan × Option String :=
  match applyMutation m p with
  | .ok q => (q, none)
  | .error e => (p, some e)

/-- Index of the first Activity whose purpose belongs to the given list. -/
def findMatching (purposes : List String) : List PElem → Option Nat
  | [] => none
  | PElem.activity a :: rest =>
      if purposes.contains a.act then some 0
      else (findMatching purposes rest).map Nat.succ
  | PElem.leg _ :: rest => (findMatching purposes rest).map Nat.succ

/-- Removal with plan filling, as used by the RemoveActivity modifier: when
the removed Activity sits between two Activities of equal purpose and
location, both adjacent Legs are dropped and the neighbours merge into one
Activity spanning the freed time; otherwise one adjacent Leg is removed and
the freed time merges into the remaining neighbour. Modelled from the spec. -/
def removeFill : List PElem → Nat → Option (List PElem)
  | PElem.activity prev :: PElem.leg l1 :: PElem.activity cur ::
      PElem.leg l2 :: PElem.activity nxt :: rest, 2 =>
      if prev.act == nxt.act && prev.area == nxt.area then
        some (PElem.activity ⟨prev.act, prev.area, prev.start_time, nxt.end_time⟩ :: rest)
      else
        removeAt (PElem.activity prev :: PElem.leg l1 :: PElem.activity cur ::
          PElem.leg l2 :: PElem.activity nxt :: rest) 2
  | x :: xs, Nat.succ (Nat.succ (Nat.succ i)) =>
      (removeFill xs (Nat.succ (Nat.succ i))).map (fun d => x :: d)
  | es, i => removeAt es i

/-- Loop of the RemoveActivity modifier: repeatedly removes the first
Activity whose purpose matches, filling the plan after each removal;
bounded by fuel. -/
def removeActivitiesLoop (purposes : List String) : Nat → List PElem → Option (List PElem)
  | 0, es => some es
  | Nat.succ n, es =>
    match findMatching purposes es with
    | none => some es
    | some i =>
      match removeFill es i with
      | none => none
      | some es2 => removeActivitiesLoop purposes n es2

/-- Modelled from the spec: the RemoveActivity modifier applied to one
person's plan — removes every Activity with a matching purpose, merging
freed time into neighbours, and leaves the Plan valid or raises a
PolicyApplicationError (the Python `pam.policy.modifiers` module is not in
the sources). -/
def removePersonActivities (purposes : List String) (p : Plan) : Except String Plan :=
  match removeActivitiesLoop purposes p.day.length p.day with
  | none => .error "PolicyApplicationError"
  | some d => commit "PolicyApplicationError" ⟨d⟩

/-- A Person: id, optional frequency weight, and one selected Plan. -/
structure Person where
  pid : String
  freq : Option Rat
  plan : Plan
deriving DecidableEq, Repr

/-- A Household: id, optional frequency weight, and its member Persons. -/
structure Household where
  hid : String
  freq : Option Rat
  persons : List Person
deriving DecidableEq, Repr

/-- Arithmetic mean of a list of rationals; none for the empty list. -/
def mean (xs : List Rat) : Option Rat :=
  if xs.isEmpty then none else some (xs.sum / (xs.length : Rat))

/-- The frequency weights carried by the legs of a plan. -/
def legFreqs (p : Plan) : List Rat :=
  p.day.filterMap (fun e =>
    match e with
    | .leg l => l.freq
    | .activity _ => none)

/-- Modelled from the spec: a person's resolved frequency — the person's own
frequency when set, otherwise the mean of the leg frequencies of that
person's plan (the Python `pam.core.Person.freq` property is not in the
sources). -/
def Person.getFreq (p : Person) : Option Rat :=
  match p.freq with
  | some f => some f
  | none => mean (legFreqs p.plan)

/-- Modelled from the spec: a household's resolved frequency — its own
frequency when set, otherwise the mean of its member persons' resolved
frequencies (the Python `pam.core.Household.freq` property is not in the
sources). -/
def Household.getFreq (h : Household) : Option Rat :=
  match h.freq with
  | some f => some f
  | none => mean (h.persons.filterMap Person.getFreq)

/-- A policy probability: a validated constant, or an arbitrary
user-supplied function of the target entity. -/
inductive Probability where
  | const (p : Rat)
  | func (f : Person → Rat)

/-- Modelled from the source docs: a constant likelihood value must be a
number greater than 0 and less than or equal to 1; any other constant is
rejected at construction (the Python `pam.policy.probability_samplers`
module is not in the sources). -/
def mkConstantProbability (p : Rat) : Except String Probability :=
  if 0 < p ∧ p ≤ 1 then .ok (Probability.const p)
  else .error "probability must be greater than 0 and less than or equal to 1"

/-- Evaluate a probability against a target person. -/
def Probability.eval : Probability → Person → Rat
  | .const p, _ => p
  | .func f, person => f person

/-- A plan modifier, as in `pam.policy.modifiers`. -/
inductive Modifier where
  | removeActivity (purposes : List String)

/-- Apply a modifier to one plan. -/
def Modifier.applyTo : Modifier → Plan → Except String Plan
  | .removeActivity ps, p => removePersonActivities ps p

/-- A person-scoped policy: a modifier bound to a probability. -/
structure PersonPolicy where
  modifier : Modifier
  probability : Probability

/-- Modelled from the spec: applying a person-scoped policy to one person —
a Bernoulli trial with the supplied random draw (a uniform sample from
[0,1)) selects the person when the draw falls below the evaluated
probability, in which case the modifier edits the person's plan. -/
def PersonPolicy.apply (pol : PersonPolicy) (draw : Rat) (person : Person) :
    Except String Person :=
  if draw < pol.probability.eval person then
    (pol.modifier.applyTo person.plan).map
      (fun pl => { pid := person.pid, freq := person.freq, plan := pl })
  else .ok person

/-- A raw travel-diary trip record, trip-purpose encoding. -/
structure RawTrip where
  ozone : String
  dzone : String
  mode : String
  tst : TimeVal
  tet : TimeVal
  purp : String
deriving DecidableEq, Repr

/-- Purpose inferred for the activity at a trip's destination: `home` when
the destination zone matches the household's home zone, else the trip's own
purpose (this same activity is the origin of the following trip, so the
following trip's origin purpose is `home` exactly when its zone matches the
home zone and otherwise propagates the prior trip's destination purpose).
Modelled from the spec. -/
def destPurpose (hzone : String) (t : RawTrip) : String :=
  if t.dzone == hzone then "home" else t.purp

/-- Chain builder of the sequence-inference engine: the pending activity
(purpose, area, start) is closed at each trip's start time, a Leg is laid
down for the trip, and the trip's destination opens the next pending
activity; the final pending activity is extended to end at 1440.
Modelled from the spec. -/
def buildChain (hzone pact parea : String) (pstart : Int) :
    List RawTrip → Except String (List PElem)
  | [] => .ok [PElem.activity ⟨pact, parea, pstart, END_OF_DAY⟩]
  | t :: rest => do
      let st ← to_minutes t.tst
      let et ← to_minutes t.tet
      let tail ← buildChain hzone (destPurpose hzone t) t.dzone et rest
      .ok (PElem.activity ⟨pact, parea, pstart, st⟩ ::
        PElem.leg ⟨t.mode, t.ozone, t.dzone, st, et, none⟩ :: tail)

/-- Modelled from the spec: the sequence-inference engine — zero trips give
a single all-day home Activity; otherwise the first Activity starts at 0 and
is inferred as `home` when the first trip leaves the household's home zone,
and the purpose-propagation failure raises an UninferableSequenceError
(the Python `pam.read` parser modules are not in the sources). -/
def buildPlan (hzone : String) : List RawTrip → Except String Plan
  | [] => .ok ⟨[PElem.activity ⟨"home", hzone, 0, END_OF_DAY⟩]⟩
  | t :: ts =>
      if t.ozone == hzone then
        (buildChain hzone "home" t.ozone 0 (t :: ts)).map Plan.mk
      else .error "UninferableSequenceError"

/-- From the source docs (activity_plans.md): the documented end time of the
last activity of a day, 24*60-1 minutes, i.e. 23:59. -/
def DOC_END_OF_DAY : Int := 24 * 60 - 1

/-- Plan validity per the documented construction rules of the source docs:
alternation, start/end with an Activity, contiguity, a day starting at
minute 0, non-negative durations, and a last activity that ends at the
documented 24*60-1. -/
def docValidate (p : Plan) : Bool :=
  alternationOk p.day && contiguousOk p.day && (firstStart p.day == 0) &&
    (lastEnd p.day == DOC_END_OF_DAY) && durationsOk p.day

/-- The concrete example plan constructed in the source docs
(activity_plans.md): home 0-450, car leg 450-480, work 480-880, car leg
880-900, home 900-(24*60-1). -/
def docExamplePlan : Plan :=
  ⟨[PElem.activity ⟨"home", "a", 0, 450⟩,
    PElem.leg ⟨"car", "a", "b", 450, 480, none⟩,
    PElem.activity ⟨"work", "b", 480, 880⟩,
    PElem.leg ⟨"car", "b", "a", 880, 900, none⟩,
    PElem.activity ⟨"home", "a", 900, DOC_END_OF_DAY⟩]⟩

/-- A concrete valid plan used as a witness input: home, car to work, work,
car home, home, spanning the whole day to 1440. -/
def examplePlan : Plan :=
  ⟨[PElem.activity ⟨"home", "a", 0, 450⟩,
    PElem.leg ⟨"car", "a", "b", 450, 480, none⟩,
    PElem.activity ⟨"work", "b", 480, 880⟩,
    PElem.leg ⟨"car", "b", "a", 880, 900, none⟩,
    PElem.activity ⟨"home", "a", 900, END_OF_DAY⟩]⟩

/-- The plan obtained from `examplePlan` by removing the work activity at
position 2 together with the preceding leg: the first home activity absorbs
the freed time. -/
def midPlan : Plan :=
  ⟨[PElem.activity ⟨"home", "a", 0, 880⟩,
    PElem.leg ⟨"car", "b", "a", 880, 900, none⟩,
    PElem.activity ⟨"home", "a", 900, END_OF_DAY⟩]⟩

/-- The scenario plan of the spec: home(0-480), car leg, work(480-960),
car leg, home(960-1440). -/
def scenarioPlan : Plan :=
  ⟨[PElem.activity ⟨"home", "a", 0, 480⟩,
    PElem.leg ⟨"car", "a", "b", 480, 480, none⟩,
    PElem.activity ⟨"work", "b", 480, 960⟩,
    PElem.leg ⟨"car", "b", "a", 960, 960, none⟩,
    PElem.activity ⟨"home", "a", 960, 1440⟩]⟩

/-- The scenario person owning `scenarioPlan`. -/
def scenarioPerson : Person := ⟨"tony", none, scenarioPlan⟩

/-- The plan expected after removing the work activity of `scenarioPlan`:
one all-day home Activity. -/
def scenarioExpected : Plan := ⟨[PElem.activity ⟨"home", "a", 0, 1440⟩]⟩

/-- First element of a plan body when it is an Activity. -/
def headAct (es : List PElem) : Option Activity :=
  match es.head? with
  | some (.activity a) => some a
  | _ => none

/-- Last element of a plan body when it is an Activity. -/
def lastAct (es : List PElem) : Option Activity :=
  match es.getLast? with
  | some (.activity a) => some a
  | _ => none

/-- Number of Activities in a plan body. -/
def countActs (es : List PElem) : Nat :=
  es.countP (fun e => e.isActivity)

/-- Number of Legs in a plan body. -/
def countLegs (es : List PElem) : Nat :=
  es.countP (fun e => !e.isActivity)

/-- A concrete trip list for witnesses: home to work at 07:30-08:00, back
home at 17:00-17:30. -/
def exampleTrips : List RawTrip :=
  [⟨"h", "b", "car", TimeVal.strv "07:30", TimeVal.strv "08:00", "work"⟩,
   ⟨"b", "h", "car", TimeVal.intv 1020, TimeVal.intv 1050, "home"⟩]

/-- The plan the inference engine builds from `exampleTrips`. -/
def exampleBuiltPlan : Plan :=
  ⟨[PElem.activity ⟨"home", "h", 0, 450⟩,
    PElem.leg ⟨"car", "h", "b", 450, 480, none⟩,
    PElem.activity ⟨"work", "b", 480, 1020⟩,
    PElem.leg ⟨"car", "b", "h", 1020, 1050, none⟩,
    PElem.activity ⟨"home", "h", 1050, END_OF_DAY⟩]⟩

/-- The concrete trip list holding an unparseable start time. -/
def badTrip : RawTrip :=
  ⟨"h", "b", "car", TimeVal.strv "not-a-time", TimeVal.intv 100, "work"⟩

end Pam

namespace Pam

/-! Helper lemmas -/

/-- A successful commit returns exactly the validated candidate. -/
theorem commit_ok {err : String} {c q : Plan} (h : commit err c = .ok q) :
    validate q = true ∧ q = c := by
  unfold commit at h
  by_cases hv : validate c = true
  · rw [if_pos hv] at h
    cases h
    exact ⟨hv, rfl⟩
  · rw [if_neg hv] at h
    cases h

/-- A valid plan starts at minute 0 and ends at minute 1440, so its total
span is exactly 1440 minutes. -/
theorem validate_span {p : Plan} (h : validate p = true) :
    firstStart p.day = 0 ∧ lastEnd p.day = 1440 ∧ totalSpan p = 1440 := by
  unfold validate at h
  simp only [Bool.and_eq_true, beq_iff_eq] at h
  obtain ⟨⟨⟨⟨_, _⟩, hfs⟩, hle⟩, _⟩ := h
  have h1440 : END_OF_DAY = (1440 : Int) := rfl
  refine ⟨hfs, by omega, ?_⟩
  unfold totalSpan
  omega

/-- Every successful public mutation returns a plan passing `validate`. -/
theorem applyMutation_ok {m : Mutation} {p q : Plan}
    (h : applyMutation m p = .ok q) : validate q = true := by
  cases m with
  | append e =>
    exact (commit_ok h).1
  | remove i =>
    simp only [applyMutation] at h
    unfold Plan.remove_activity at h
    cases hr : removeAt p.day i with
    | none => rw [hr] at h; cases h
    | some d => rw [hr] at h; exact (commit_ok h).1
  | insert i a l =>
    simp only [applyMutation] at h
    unfold Plan.insert_activity at h
    cases hr : insertAt p.day i a l with
    | none => rw [hr] at h; cases h
    | some d => rw [hr] at h; exact (commit_ok h).1
  | retime i ns ne =>
    simp only [applyMutation] at h
    unfold Plan.retime at h
    cases hr : retimeCore p.day i ns ne with
    | none => rw [hr] at h; cases h
    | some d => rw [hr] at h; exact (commit_ok h).1
  | crop pred =>
    simp only [applyMutation] at h
    unfold Plan.crop at h
    by_cases hall : p.day.all (fun e =>
        match e with
        | .activity a => !pred a.area
        | .leg _ => true) = true
    · rw [if_pos hall] at h; cases h
    · rw [if_neg hall] at h
      cases hr : cropLoop pred p.day.length p.day with
      | none => rw [hr] at h; cases h
      | some d => rw [hr] at h; exact (commit_ok h).1

/-- Dropping the first two elements preserves the last element. -/
theorem lastEnd_cons_cons (a b : PElem) (t : List PElem) :
    lastEnd (a :: b :: t) = lastEnd (b :: t) := by
  unfold lastEnd
  rw [List.getLast?_cons_cons]

/-- A successful `removeAt` removes exactly one Activity and exactly one
Leg from the element list. -/
theorem removeAt_counts (es : List PElem) (i : Nat) (d : List PElem)
    (h : removeAt es i = some d) :
    countActs d + 1 = countActs es ∧ countLegs d + 1 = countLegs es := by
  induction es, i using removeAt.induct generalizing d with
  | case1 a =>
    simp [removeAt] at h
  | case2 a l b rest =>
    simp only [removeAt, Option.some.injEq] at h
    subst h
    simp [countActs, countLegs, List.countP_cons, PElem.isActivity]
  | case3 prev l cur rest =>
    simp only [removeAt, Option.some.injEq] at h
    subst h
    simp [countActs, countLegs, List.countP_cons, PElem.isActivity]
  | case4 x xs i ih =>
    simp only [removeAt, Option.map_eq_some'] at h
    obtain ⟨d2, hd2, hx⟩ := h
    subst hx
    have := ih d2 hd2
    cases x with
    | activity a =>
      simp [countActs, countLegs, List.countP_cons, PElem.isActivity] at this ⊢
      omega
    | leg lg =>
      simp [countActs, countLegs, List.countP_cons, PElem.isActivity] at this ⊢
      omega
  | case5 t x h1 h2 h3 h4 =>
    rw [removeAt.eq_def] at h
    split at h
    · cases h
    · exact (h2 _ _ _ _ rfl rfl).elim
    · exact (h3 _ _ _ _ rfl rfl).elim
    · exact (h4 _ _ _ rfl rfl).elim
    · cases h

/-- For a nonempty contiguous element list, the element durations telescope:
their sum is the last end time minus the first start time. -/
theorem sumDur_eq_span (es : List PElem) (hne : es ≠ [])
    (hc : contiguousOk es = true) :
    sumDur es = lastEnd es - firstStart es := by
  induction es with
  | nil => exact absurd rfl hne
  | cons a t ih =>
    cases t with
    | nil =>
      simp [sumDur, lastEnd, firstStart]
    | cons b t2 =>
      simp only [contiguousOk, Bool.and_eq_true, beq_iff_eq] at hc
      have ihr := ih (by simp) hc.2
      rw [lastEnd_cons_cons]
      simp only [sumDur, List.map_cons, List.sum_cons] at ihr ⊢
      simp only [firstStart, List.head?] at ihr ⊢
      have hab := hc.1
      omega

/-- A valid plan has a nonempty, contiguous element list. -/
theorem validate_parts {p : Plan} (h : validate p = true) :
    p.day ≠ [] ∧ contiguousOk p.day = true := by
  unfold validate at h
  simp only [Bool.and_eq_true, beq_iff_eq] at h
  obtain ⟨⟨⟨⟨ha, hcg⟩, _⟩, _⟩, _⟩ := h
  refine ⟨?_, hcg⟩
  unfold alternationOk at ha
  simp only [Bool.and_eq_true] at ha
  intro hnil
  rw [hnil] at ha
  simp at ha

/-- The total duration of a valid plan is 1440 minutes. -/
theorem validate_sumDur {p : Plan} (h : validate p = true) :
    sumDur p.day = 1440 := by
  obtain ⟨hne, hcg⟩ := validate_parts h
  rw [sumDur_eq_span p.day hne hcg]
  obtain ⟨h1, h2, _⟩ := validate_span h
  omega

/-! Claims -/

/-- C1: for every Plan satisfying the invariants and every public mutator
(append, remove_activity, insert_activity, retime, crop), a successful call
returns a Plan on which `validate` reports ok, and a failing call leaves the
caller-observed Plan unchanged (all-or-nothing atomicity). -/
theorem mutators_atomic (m : Mutation) (P : Plan) (hv : validate P = true) :
    ((applyMutationSt m P).2 = none → validate (applyMutationSt m P).1 = true) ∧
    (∀ e, (applyMutationSt m P).2 = some e → (applyMutationSt m P).1 = P) := by
  cases hres : applyMutation m P with
  | ok q =>
    constructor
    · intro _
      simp only [applyMutationSt, hres]
      exact applyMutation_ok hres
    · intro e he
      simp only [applyMutationSt, hres] at he
      cases he
  | error err =>
    constructor
    · intro hn
      simp only [applyMutationSt, hres] at hn
      cases hn
    · intro e _
      simp only [applyMutationSt, hres]

/-- C1 witness: removing the work activity of the concrete example plan
succeeds and the result passes `validate`. -/
theorem mutators_atomic_witness :
    validate (applyMutationSt (Mutation.remove 2) examplePlan).1 = true :=
  (mutators_atomic (Mutation.remove 2) examplePlan (by decide)).1 (by decide)

/-- C4: on a valid Plan with at least two Activities, a successful
`remove_activity(index)` removes exactly one Activity and exactly one
adjacent Leg, and the freed time is merged into the remaining neighbouring
Activity so the total plan duration is conserved. -/
theorem remove_activity_conserves (P Q : Plan) (i : Nat)
    (hv : validate P = true) (hacts : 2 ≤ countActs P.day)
    (hok : P.remove_activity i = .ok Q) :
    countActs Q.day + 1 = countActs P.day ∧
    countLegs Q.day + 1 = countLegs P.day ∧
    sumDur Q.day = sumDur P.day := by
  unfold Plan.remove_activity at hok
  cases hr : removeAt P.day i with
  | none => rw [hr] at hok; cases hok
  | some d =>
    rw [hr] at hok
    obtain ⟨hvq, hq⟩ := commit_ok hok
    subst hq
    have hc := removeAt_counts P.day i d hr
    exact ⟨hc.1, hc.2, (validate_sumDur hvq).trans (validate_sumDur hv).symm⟩

/-- C4 witness: removing the work activity at position 2 of the example
plan drops one Activity and one Leg and conserves the total duration. -/
theorem remove_activity_conserves_witness :
    countActs midPlan.day + 1 = countActs examplePlan.day ∧
    countLegs midPlan.day + 1 = countLegs examplePlan.day ∧
    sumDur midPlan.day = sumDur examplePlan.day :=
  remove_activity_conserves examplePlan midPlan 2 (by decide) (by decide) rfl

/-- C5: a `remove_activity` followed by a successful `insert_activity` at
the same logical position with the same donated duration restores the
pre-removal total span of exactly 1440 minutes. -/
theorem remove_insert_restores_span (P P1 P2 : Plan) (i j : Nat)
    (a : Activity) (l : Leg)
    (hv : validate P = true)
    (h1 : P.remove_activity i = .ok P1)
    (h2 : P1.insert_activity j a l = .ok P2) :
    totalSpan P2 = 1440 ∧ totalSpan P2 = totalSpan P := by
  have hv2 : validate P2 = true := by
    unfold Plan.insert_activity at h2
    cases hr : insertAt P1.day j a l with
    | none => rw [hr] at h2; cases h2
    | some d => rw [hr] at h2; exact (commit_ok h2).1
  have s2 := (validate_span hv2).2.2
  have s0 := (validate_span hv).2.2
  exact ⟨s2, s2.trans s0.symm⟩

/-- C5 witness: removing the work activity of the example plan and
re-inserting it at the same logical position with the same donated
duration reproduces the original plan, whose span is 1440. -/
theorem remove_insert_restores_span_witness :
    totalSpan examplePlan = 1440 ∧ totalSpan examplePlan = totalSpan examplePlan :=
  remove_insert_restores_span examplePlan midPlan examplePlan 2 0
    ⟨"work", "b", 480, 880⟩ ⟨"car", "a", "b", 450, 480, none⟩
    (by decide) rfl rfl

/-- C6 counterexample: the plan constructed in the repository's own
documentation satisfies the documented construction rules, yet its last
activity ends at 24*60-1 = 1439, not at 1440 as the claim states. -/
theorem last_end_1440_counterexample :
    docValidate docExamplePlan = true ∧ ¬(lastEnd docExamplePlan.day = 1440) := by
  decide

/-- C6 (amended): for every Plan valid per the documented construction, the
first activity starts at minute 0, the last activity ends at the documented
day end 24*60-1 = 1439, and every element has end time at least its start
time. -/
theorem doc_plan_time_invariants (p : Plan) (h : docValidate p = true) :
    firstStart p.day = 0 ∧ lastEnd p.day = 24 * 60 - 1 ∧
      durationsOk p.day = true := by
  unfold docValidate at h
  simp only [Bool.and_eq_true, beq_iff_eq] at h
  obtain ⟨⟨⟨⟨_, _⟩, hfs⟩, hle⟩, hd⟩ := h
  have hdoc : DOC_END_OF_DAY = (24 * 60 - 1 : Int) := by decide
  exact ⟨hfs, hle.trans hdoc, hd⟩

/-- C6 witness: the documented example plan instantiates the amended
invariants. -/
theorem doc_plan_time_invariants_witness :
    firstStart docExamplePlan.day = 0 ∧ lastEnd docExamplePlan.day = 24 * 60 - 1 ∧
      durationsOk docExamplePlan.day = true :=
  doc_plan_time_invariants docExamplePlan (by decide)

/-- C7: for minute-of-day time values, duration is never negative — it is
end minus start when end is at least start, and gains 1440 (midnight
wraparound) when end is before start. -/
theorem duration_wraparound (st et : Int) (h1 : 0 ≤ st) (h2 : st < 1440)
    (h3 : 0 ≤ et) (h4 : et < 1440) :
    0 ≤ duration st et ∧ (st ≤ et → duration st et = et - st) ∧
      (et < st → duration st et = et - st + 1440) := by
  unfold duration
  refine ⟨?_, fun hle => ?_, fun hlt => ?_⟩ <;> split <;> omega

/-- C7 witness: a trip from 23:00 to 02:00 lasts 180 minutes. -/
theorem duration_wraparound_witness :
    0 ≤ duration 1380 120 ∧ duration 1380 120 = 120 - 1380 + 1440 := by
  have h := duration_wraparound 1380 120 (by decide) (by decide) (by decide) (by decide)
  exact ⟨h.1, h.2.2 (by decide)⟩

/-- C9: a household with no frequency of its own resolves to the mean of
its member persons' frequencies, and a person with no frequency of their
own resolves to the mean of the leg frequencies of that person's plan. -/
theorem freq_aggregation (hid : String) (p1 p2 pp : Person) (f1 f2 : Rat)
    (h1 : p1.freq = some f1) (h2 : p2.freq = some f2) (hp : pp.freq = none) :
    Household.getFreq ⟨hid, none, [p1, p2]⟩ = some ((f1 + f2) / 2) ∧
      Person.getFreq pp = mean (legFreqs pp.plan) := by
  have g1 : Person.getFreq p1 = some f1 := by unfold Person.getFreq; rw [h1]
  have g2 : Person.getFreq p2 = some f2 := by unfold Person.getFreq; rw [h2]
  constructor
  · unfold Household.getFreq
    simp only [List.filterMap, g1, g2]
    unfold mean
    simp
  · unfold Person.getFreq
    rw [hp]

/-- C9 witness: members of frequencies 10 and 20 give a household frequency
of 15. -/
theorem freq_aggregation_witness :
    Household.getFreq ⟨"h1", none,
      [⟨"p1", some 10, ⟨[]⟩⟩, ⟨"p2", some 20, ⟨[]⟩⟩]⟩ = some 15 := by
  have h := (freq_aggregation "h1" ⟨"p1", some 10, ⟨[]⟩⟩ ⟨"p2", some 20, ⟨[]⟩⟩
    ⟨"q", none, ⟨[]⟩⟩ 10 20 rfl rfl rfl).1
  rw [h]
  norm_num

/-- C10: a constant likelihood value is accepted at construction exactly
when it lies in (0,1]; a successfully constructed constant probability
never evaluates to 0, while a user-supplied function may evaluate to 0. -/
theorem likelihood_domain (p : Rat) :
    ((∃ pr, mkConstantProbability p = .ok pr) ↔ (0 < p ∧ p ≤ 1)) ∧
    (∀ pr person, mkConstantProbability p = .ok pr → pr.eval person ≠ 0) ∧
    (∃ f person, (Probability.func f).eval person = 0) := by
  refine ⟨⟨fun hex => ?_, fun hpr => ?_⟩, fun pr person hok => ?_,
    ⟨fun _ => 0, ⟨"", none, ⟨[]⟩⟩, rfl⟩⟩
  · obtain ⟨pr, hpr⟩ := hex
    unfold mkConstantProbability at hpr
    by_cases hc : 0 < p ∧ p ≤ 1
    · exact hc
    · rw [if_neg hc] at hpr; cases hpr
  · refine ⟨Probability.const p, ?_⟩
    unfold mkConstantProbability
    rw [if_pos hpr]
  · unfold mkConstantProbability at hok
    by_cases hc : 0 < p ∧ p ≤ 1
    · rw [if_pos hc] at hok
      cases hok
      simpa [Probability.eval] using (ne_of_lt hc.1).symm
    · rw [if_neg hc] at hok; cases hok

/-- C10 witness: the constant 1/2 is accepted. -/
theorem likelihood_domain_witness :
    ∃ pr, mkConstantProbability (1 / 2) = .ok pr :=
  (likelihood_domain (1 / 2)).1.mpr ⟨by norm_num, by norm_num⟩

/-- C2: applying RemoveActivity for purpose work with constant probability 1
to the scenario person (home 0-480, car leg, work 480-960, car leg,
home 960-1440) yields the single all-day home activity, and the result
passes validate. -/
theorem remove_activity_policy_scenario (d : Rat) (h0 : 0 ≤ d) (h1 : d < 1) :
    PersonPolicy.apply ⟨Modifier.removeActivity ["work"], Probability.const 1⟩
        d scenarioPerson =
      Except.ok ⟨"tony", none, scenarioExpected⟩ ∧
    validate scenarioExpected = true := by
  constructor
  · unfold PersonPolicy.apply
    rw [if_pos (by simpa [Probability.eval] using h1)]
    rfl
  · decide

/-- C2 witness: the scenario at the concrete random draw 0. -/
theorem remove_activity_policy_scenario_witness :
    PersonPolicy.apply ⟨Modifier.removeActivity ["work"], Probability.const 1⟩
        0 scenarioPerson =
      Except.ok ⟨"tony", none, scenarioExpected⟩ ∧
    validate scenarioExpected = true :=
  remove_activity_policy_scenario 0 (by norm_num) (by norm_num)

/-- The first element of a chain built by the inference engine is the
pending activity, with the pending purpose, area and start time. -/
theorem buildChain_head (ts : List RawTrip) (hzone pact parea : String)
    (pstart : Int) (es : List PElem)
    (h : buildChain hzone pact parea pstart ts = .ok es) :
    ∃ et, headAct es = some ⟨pact, parea, pstart, et⟩ := by
  cases ts with
  | nil =>
    simp only [buildChain] at h
    cases h
    exact ⟨END_OF_DAY, rfl⟩
  | cons t rest =>
    simp only [buildChain] at h
    cases hst : to_minutes t.tst with
    | error e => rw [hst] at h; simp [Bind.bind, Except.bind] at h
    | ok st =>
      rw [hst] at h
      simp only [Bind.bind, Except.bind] at h
      cases het : to_minutes t.tet with
      | error e => rw [het] at h; simp at h
      | ok et =>
        rw [het] at h
        simp only at h
        cases hch : buildChain hzone (destPurpose hzone t) t.dzone et rest with
        | error e => rw [hch] at h; simp at h
        | ok tail =>
          rw [hch] at h
          simp only [Except.ok.injEq] at h
          subst h
          exact ⟨st, rfl⟩

/-- The last element of a chain built by the inference engine is an
Activity ending at 1440 whose purpose and area come from the last trip's
inferred destination (or from the pending activity when no trips remain). -/
theorem buildChain_lastAct (ts : List RawTrip) (hzone pact parea : String)
    (pstart : Int) (es : List PElem)
    (h : buildChain hzone pact parea pstart ts = .ok es) :
    (ts = [] ∧ ∃ st, lastAct es = some ⟨pact, parea, st, END_OF_DAY⟩) ∨
    (∃ tl st, ts.getLast? = some tl ∧
      lastAct es = some ⟨destPurpose hzone tl, tl.dzone, st, END_OF_DAY⟩) := by
  induction ts generalizing pact parea pstart es with
  | nil =>
    left
    simp only [buildChain] at h
    cases h
    exact ⟨rfl, pstart, rfl⟩
  | cons t rest ih =>
    right
    simp only [buildChain] at h
    cases hst : to_minutes t.tst with
    | error e => rw [hst] at h; simp [Bind.bind, Except.bind] at h
    | ok st =>
      rw [hst] at h
      simp only [Bind.bind, Except.bind] at h
      cases het : to_minutes t.tet with
      | error e => rw [het] at h; simp at h
      | ok et =>
        rw [het] at h
        simp only at h
        cases hch : buildChain hzone (destPurpose hzone t) t.dzone et rest with
        | error e => rw [hch] at h; simp at h
        | ok tail =>
          rw [hch] at h
          simp only [Except.ok.injEq] at h
          subst h
          have hne : tail ≠ [] := by
            obtain ⟨et2, hh⟩ := buildChain_head rest hzone _ _ _ tail hch
            intro hnil
            rw [hnil] at hh
            simp [headAct] at hh
          have hlift : ∀ (x1 x2 : PElem), lastAct (x1 :: x2 :: tail) = lastAct tail := by
            intro x1 x2
            cases tail with
            | nil => exact absurd rfl hne
            | cons c t3 =>
              unfold lastAct
              rw [List.getLast?_cons_cons, List.getLast?_cons_cons]
          rcases ih (destPurpose hzone t) t.dzone et tail hch with
            ⟨hrnil, st2, hla⟩ | ⟨tl, st2, hgl, hla⟩
          · subst hrnil
            refine ⟨t, st2, rfl, ?_⟩
            rw [hlift]
            exact hla
          · have hrestne : rest ≠ [] := by
              intro hnil
              rw [hnil] at hgl
              cases hgl
            refine ⟨tl, st2, ?_, ?_⟩
            · cases rest with
              | nil => exact absurd rfl hrestne
              | cons r rest2 => rw [List.getLast?_cons_cons]; exact hgl
            · rw [hlift]
              exact hla

/-- C3: when the inference engine succeeds on trips whose final trip
returns to the household home zone with purpose home, the built Plan's
first and last Activity both have purpose home and the same location
(the engine infers origin purposes as home exactly on a home-zone match,
else by propagating the prior trip's destination purpose — see
`destPurpose` and `buildChain`). -/
theorem inference_closure (hzone : String) (trips : List RawTrip)
    (tl : RawTrip) (plan : Plan)
    (hlast : trips.getLast? = some tl)
    (hdz : tl.dzone = hzone) (hpurp : tl.purp = "home")
    (hok : buildPlan hzone trips = .ok plan) :
    ∃ a b, headAct plan.day = some a ∧ lastAct plan.day = some b ∧
      a.act = "home" ∧ b.act = "home" ∧ a.area = b.area := by
  cases trips with
  | nil => cases hlast
  | cons t ts =>
    simp only [buildPlan] at hok
    by_cases hoz : (t.ozone == hzone) = true
    · rw [if_pos hoz] at hok
      cases hch : buildChain hzone "home" t.ozone 0 (t :: ts) with
      | error e => rw [hch] at hok; simp [Except.map] at hok
      | ok es =>
        rw [hch] at hok
        simp only [Except.map, Except.ok.injEq] at hok
        subst hok
        obtain ⟨et, hhead⟩ := buildChain_head (t :: ts) hzone "home" t.ozone 0 es hch
        rcases buildChain_lastAct (t :: ts) hzone "home" t.ozone 0 es hch with
          ⟨hnil, _⟩ | ⟨tl2, st, hgl, hla⟩
        · cases hnil
        · rw [hlast] at hgl
          have htl : tl2 = tl := by cases hgl; rfl
          subst htl
          refine ⟨_, _, hhead, hla, rfl, ?_, ?_⟩
          · simp [destPurpose, hdz]
          · rw [hdz]
            exact beq_iff_eq.mp hoz
    · rw [if_neg hoz] at hok; cases hok

/-- C3 witness: the engine on the concrete example trips, whose final trip
returns home. -/
theorem inference_closure_witness :
    ∃ a b, headAct exampleBuiltPlan.day = some a ∧
      lastAct exampleBuiltPlan.day = some b ∧
      a.act = "home" ∧ b.act = "home" ∧ a.area = b.area :=
  inference_closure "h" exampleTrips
    ⟨"b", "h", "car", TimeVal.intv 1020, TimeVal.intv 1050, "home"⟩
    exampleBuiltPlan (by decide) rfl rfl rfl

/-- An unparseable time value makes `to_minutes` raise MalformedTimeError. -/
theorem to_minutes_malformed (v : TimeVal) (hv : parseableTime v = false) :
    to_minutes v = .error "MalformedTimeError" := by
  cases v with
  | intv n => simp [parseableTime] at hv
  | strv s =>
    simp only [parseableTime] at hv
    simp only [to_minutes]
    cases hp : parseClock s with
    | none => rfl
    | some m => rw [hp] at hv; simp at hv

/-- The chain builder never succeeds when some trip in the list has an
unparseable start time. -/
theorem buildChain_malformed (ts : List RawTrip) (t : RawTrip)
    (hmem : t ∈ ts) (hbad : parseableTime t.tst = false)
    (hzone pact parea : String) (pstart : Int) (es : List PElem) :
    buildChain hzone pact parea pstart ts ≠ .ok es := by
  induction ts generalizing pact parea pstart es with
  | nil => cases hmem
  | cons u rest ih =>
    intro h
    simp only [buildChain] at h
    rcases List.mem_cons.mp hmem with heq | hmem2
    · subst heq
      rw [to_minutes_malformed t.tst hbad] at h
      simp [Bind.bind, Except.bind] at h
    · cases hst : to_minutes u.tst with
      | error e => rw [hst] at h; simp [Bind.bind, Except.bind] at h
      | ok st =>
        rw [hst] at h
        simp only [Bind.bind, Except.bind] at h
        cases het : to_minutes u.tet with
        | error e => rw [het] at h; simp at h
        | ok et =>
          rw [het] at h
          simp only at h
          cases hch : buildChain hzone (destPurpose hzone u) u.dzone et rest with
          | error e => rw [hch] at h; simp at h
          | ok tail =>
            exact ih hmem2 (destPurpose hzone u) u.dzone et tail hch

/-- C8: an unparseable time value makes `to_minutes` raise
MalformedTimeError, and when such a value occurs as the start time of any
trip of a person's record, the sequence-inference engine produces no Plan at
all for that person. -/
theorem malformed_time_no_plan (v : TimeVal) (hzone : String)
    (trips : List RawTrip) (t : RawTrip)
    (hv : parseableTime v = false) (hmem : t ∈ trips)
    (hbad : parseableTime t.tst = false) :
    to_minutes v = .error "MalformedTimeError" ∧
    ∀ plan, buildPlan hzone trips ≠ .ok plan := by
  refine ⟨to_minutes_malformed v hv, fun plan hok => ?_⟩
  cases trips with
  | nil => cases hmem
  | cons u ts =>
    simp only [buildPlan] at hok
    by_cases hoz : (u.ozone == hzone) = true
    · rw [if_pos hoz] at hok
      cases hch : buildChain hzone "home" u.ozone 0 (u :: ts) with
      | error e => rw [hch] at hok; simp [Except.map] at hok
      | ok es =>
        exact buildChain_malformed (u :: ts) t hmem hbad hzone "home" u.ozone 0 es hch
    · rw [if_neg hoz] at hok; cases hok

/-- C8 witness: the literal not-a-time start time. -/
theorem malformed_time_no_plan_witness :
    to_minutes (TimeVal.strv "not-a-time") = .error "MalformedTimeError" ∧
    ∀ plan, buildPlan "h" [badTrip] ≠ .ok plan :=
  malformed_time_no_plan (TimeVal.strv "not-a-time") "h" [badTrip] badTrip
    (by decide) (List.mem_singleton.mpr rfl) (by decide)

end Pam
